import Mathlib

/-!
Shallow embedding of `src/services/pricingCalculator.ts` (KosztorysyAI).

JavaScript numbers are modelled as `ℚ` (all prices in the program are exact
decimals), JS strings as Lean `String`, and the insertion-ordered JS `Map`
as an association list.  `toLowerCase` is modelled on the alphabet the
program manipulates (ASCII plus the Polish letters appearing in the
source's keyword tables).  Definition names follow the source.
-/

namespace Kosztorysy

attribute [local semireducible] Rat.add Rat.mul Rat.inv Rat.sub

/-- Lowercasing as used by the source (`toLowerCase`), covering ASCII and the
Polish letters that occur in the program's keyword tables and labels. -/
def jsToLowerChar (c : Char) : Char :=
  if 'A' ≤ c ∧ c ≤ 'Z' then Char.ofNat (c.toNat + 32)
  else if c = 'Ą' then 'ą' else if c = 'Ć' then 'ć' else if c = 'Ę' then 'ę'
  else if c = 'Ł' then 'ł' else if c = 'Ń' then 'ń' else if c = 'Ó' then 'ó'
  else if c = 'Ś' then 'ś' else if c = 'Ź' then 'ź' else if c = 'Ż' then 'ż'
  else c

def jsToLower (s : String) : String := String.mk (s.data.map jsToLowerChar)

/-- Whitespace for JS `trim` and the regex class `\s` on the inputs at hand. -/
def isJsSpace (c : Char) : Bool :=
  c = ' ' ∨ c = '\t' ∨ c = '\n' ∨ c = '\r' ∨ c.toNat = 11 ∨ c.toNat = 12 ∨ c.toNat = 160

/-- JS `String.prototype.trim`. -/
def jsTrim (s : String) : String :=
  String.mk (((s.data.dropWhile isJsSpace).reverse.dropWhile isJsSpace).reverse)

/-- Substring test on character lists (JS `String.prototype.includes`).
The empty pattern is contained in everything, as in JS. -/
def isInfixB (pat : List Char) : List Char → Bool
  | [] => pat.isEmpty
  | c :: rest => pat.isPrefixOf (c :: rest) || isInfixB pat rest

/-- JS `a.includes(b)`. -/
def strIncludes (s pat : String) : Bool := isInfixB pat.data s.data

/-- JS regex word characters `\w` = `[A-Za-z0-9_]` (ASCII only). -/
def isWordChar (c : Char) : Bool := c.isAlpha ∨ c.isDigit ∨ c = '_'

/-- ASCII-only lowering used for the `i` regex flag on ASCII codes. -/
def asciiLower (c : Char) : Char :=
  if 'A' ≤ c ∧ c ≤ 'Z' then Char.ofNat (c.toNat + 32) else c

/-- `parseInt` on a run of decimal digits. -/
def digitsVal (l : List Char) : ℕ := l.foldl (fun a c => a * 10 + (c.toNat - 48)) 0

def digitChar : ℕ → Char
  | 0 => '0' | 1 => '1' | 2 => '2' | 3 => '3' | 4 => '4'
  | 5 => '5' | 6 => '6' | 7 => '7' | 8 => '8' | _ => '9'

/-- Decimal digit list of a natural number, by fuel-bounded structural
recursion so that it evaluates inside the kernel. -/
def natDigitsAux : ℕ → ℕ → List Char
  | 0, _ => []
  | fuel + 1, n =>
    if n < 10 then [digitChar n]
    else natDigitsAux fuel (n / 10) ++ [digitChar (n % 10)]

/-- Decimal digit list of a natural number (JS `Number.prototype.toString`). -/
def natDigits (n : ℕ) : List Char := natDigitsAux (n + 1) n

def natToString (n : ℕ) : String := String.mk (natDigits n)

/-- Rounding a currency amount to two decimals
(JS `parseFloat(x.toFixed(2))` on the exact values the program produces). -/
def round2 (q : ℚ) : ℚ := ((⌊q * 100 + 1/2⌋ : ℤ) : ℚ) / 100

/-- Two-digit zero padding for the cents part. -/
def pad2 (k : ℕ) : String := if k < 10 then "0" ++ natToString k else natToString k

/-- `formatPrice` from the source: `toFixed(2)` with a trailing `.00` stripped. -/
def formatPrice (v : ℚ) : String :=
  let n : ℕ := (⌊v * 100 + 1/2⌋).toNat
  if n % 100 = 0 then natToString (n / 100)
  else natToString (n / 100) ++ "." ++ pad2 (n % 100)

/-- The extracted-table record (`ExtractedTable` in `types`): an optional
title, ordered headers and ordered rows of cell strings. -/
structure ExtractedTable where
  title : Option String := none
  headers : List String
  rows : List (List String)
  deriving DecidableEq, Repr, Inhabited

structure CalculatedTotals where
  totalNetto : ℚ
  totalBrutto : ℚ
  deriving DecidableEq, Repr

structure ProcessingOptions where
  removeUoRows : Bool := false
  removeZeroPriceRows : Bool := false
  preserveLp : Bool := false
  wePrice : Option ℚ := none
  w2tPrice : Option ℚ := none
  w4tPrice : Option ℚ := none
  kuPrice : Option ℚ := none
  csMultiplier : Option ℚ := none
  customCsPrices : Option (List ℚ) := none
  deriving DecidableEq, Repr, Inhabited

structure PricingTier where
  min : ℕ
  max : ℕ
  price : ℚ
  deriving DecidableEq, Repr

/-- The CS price schedule (`DEFAULT_PRICING_SCHEDULE`). -/
def DEFAULT_PRICING_SCHEDULE : List PricingTier :=
  [⟨0, 100, 730⟩, ⟨101, 150, 792⟩, ⟨151, 200, 848⟩, ⟨201, 250, 912⟩,
   ⟨251, 300, 1164⟩, ⟨301, 350, 1296⟩, ⟨351, 400, 1462⟩, ⟨401, 450, 1628⟩,
   ⟨451, 500, 1650⟩, ⟨501, 550, 1766⟩, ⟨551, 600, 1880⟩, ⟨601, 650, 1996⟩,
   ⟨651, 700, 2112⟩]

def VAT_RATE : ℚ := 8/100

/-- `row[i] || ""`: indexing that degrades to the empty string. -/
def getCell (row : List String) (i : ℕ) : String := (row.get? i).getD ""

def strongHeaderKeywords : List String :=
  ["lp.", "lp", "nr na mapie", "nazwa gatunku", "obwód", "obwod", "zabiegi",
   "pielęgnacyjne", "wartość", "netto", "brutto", "kod"]

/-- `normalizeText`: lowercase and strip whitespace and `. , ; :`. -/
def normalizeText (s : String) : String :=
  String.mk ((jsToLower s).data.filter
    (fun c => ¬ (isJsSpace c ∨ c = '.' ∨ c = ',' ∨ c = ';' ∨ c = ':')))

/-- Strategy B of `isHeaderRow`: positional comparison with the reference
headers, scoring 1 for equality and 4/5 for substring containment. -/
def headerCompareScore (pairs : List (String × String)) : ℚ × ℕ :=
  pairs.foldl
    (fun st p =>
      let hn := normalizeText p.1
      let rn := normalizeText p.2
      if hn = "" ∧ rn = "" then st
      else
        let sc : ℚ :=
          if hn = rn then 1
          else if (hn.length > 3 ∨ rn.length > 3) ∧
                  (strIncludes hn rn ∨ strIncludes rn hn) then 4/5
          else 0
        (st.1 + sc, st.2 + 1))
    (0, 0)

/-- `isHeaderRow` from the source: keyword hits plus comparison with the
extracted reference headers. -/
def isHeaderRow (row : List String) (referenceHeaders : List String) : Bool :=
  let rowText := jsToLower (String.intercalate " " row)
  let keywordHits := (strongHeaderKeywords.filter (fun kw => strIncludes rowText kw)).length
  if keywordHits ≥ 3 then true
  else if keywordHits ≥ 2 ∧ (strIncludes rowText "lp" ∨ strIncludes rowText "nr") then true
  else if referenceHeaders.length > 0 then
    let (matchScore, comparisons) := headerCompareScore (referenceHeaders.zip row)
    decide (comparisons > 0 ∧ matchScore / comparisons > 1/2)
  else false

/-- `mergeCompatibleTables`: concatenate consecutive compatible fragments. -/
def mergeGo (cur : ExtractedTable) : List ExtractedTable → List ExtractedTable
  | [] => [cur]
  | next :: rest =>
    let colDiff := ((cur.headers.length : ℤ) - next.headers.length).natAbs
    let sameHeaders := cur.headers = next.headers
    let headersLookSimilar := isHeaderRow next.headers cur.headers
    if sameHeaders ∨ headersLookSimilar ∨ (colDiff ≤ 1 ∧ next.headers.length > 3) then
      mergeGo { cur with rows := cur.rows ++ next.rows } rest
    else
      cur :: mergeGo next rest

def mergeCompatibleTables : List ExtractedTable → List ExtractedTable
  | [] => []
  | t :: rest => mergeGo t rest

/-! ### The multiplier-aware treatment-code counter

`getTreatmentCount` applies the regex
`(?:(\d+)\s*x\s*)?\b(code)\b(?:\s*x\s*(\d+))?` with flags `ig` via `matchAll`
and sums, per match, `parseInt(match[1] || match[3] || "1")`.  The scanner
below reproduces the regex engine's behaviour for this pattern: at each
position the greedy numeric prefix is attempted first, the whole-word code
with an optional `x`-separated numeric suffix follows, and matched text is
consumed before the scan continues. -/

/-- Case-insensitive prefix match of a (lowercase ASCII) code; returns the
rest of the text on success. -/
def matchCode : List Char → List Char → Option (List Char)
  | [], rest => some rest
  | _ :: _, [] => none
  | c :: cs, d :: ds => if asciiLower d = c then matchCode cs ds else none

/-- The optional suffix `\s*x\s*(\d+)`: value of the digits and number of
characters consumed. -/
def trySuffix (l : List Char) : Option (ℕ × ℕ) :=
  let sp1 := l.takeWhile isJsSpace
  match l.dropWhile isJsSpace with
  | d :: ds =>
    if asciiLower d = 'x' then
      let sp2 := ds.takeWhile isJsSpace
      let r2 := ds.dropWhile isJsSpace
      let dg := r2.takeWhile Char.isDigit
      if dg.isEmpty then none
      else some (digitsVal dg, sp1.length + 1 + sp2.length + dg.length)
    else none
  | [] => none

/-- Match `\b(code)\b(?:\s*x\s*(\d+))?` at the current position, the word
boundary before the code already decided; `prefixVal` is group 1 when the
numeric prefix was taken (it wins over the suffix, as in
`match[1] || match[3] || "1"`). -/
def tryCore (code : List Char) (startBoundaryOk : Bool) (l : List Char)
    (prefixVal : Option ℕ) : Option (ℕ × ℕ) :=
  if startBoundaryOk then
    match matchCode code l with
    | some rest =>
      if (match rest with | [] => true | c :: _ => ¬ isWordChar c) then
        match trySuffix rest with
        | some (v, k) => some (prefixVal.getD v, code.length + k)
        | none => some (prefixVal.getD 1, code.length)
      else none
    | none => none
  else none

/-- Attempt a match at the current position: first with the greedy prefix
`(\d+)\s*x\s*`, then without it.  `prev` is the character before the
position (for the `\b` test).  Returns the counted value and the number of
characters consumed. -/
def tryAt (code : List Char) (prev : Option Char) (l : List Char) : Option (ℕ × ℕ) :=
  let attemptA : Option (ℕ × ℕ) :=
    let dg := l.takeWhile Char.isDigit
    if dg.isEmpty then none
    else
      let r1 := l.dropWhile Char.isDigit
      let sp1 := r1.takeWhile isJsSpace
      match r1.dropWhile isJsSpace with
      | c :: r3 =>
        if asciiLower c = 'x' then
          let sp2 := r3.takeWhile isJsSpace
          let r4 := r3.dropWhile isJsSpace
          match tryCore code (¬ sp2.isEmpty) r4 (some (digitsVal dg)) with
          | some (v, k) => some (v, dg.length + sp1.length + 1 + sp2.length + k)
          | none => none
        else none
      | [] => none
  match attemptA with
  | some r => some r
  | none =>
    let bOk := match prev with | none => true | some c => ¬ isWordChar c
    tryCore code bOk l none

/-- The left-to-right scan of `matchAll`: on a match, add its value and
continue after the consumed text; otherwise advance one character. -/
def scanAux (code : List Char) : ℕ → Option Char → List Char → ℕ
  | 0, _, _ => 0
  | _, _, [] => 0
  | fuel + 1, prev, c :: rest =>
    match tryAt code prev (c :: rest) with
    | some (v, k) => v + scanAux code fuel ((c :: rest).take k).getLast? ((c :: rest).drop k)
    | none => scanAux code fuel (some c) rest

/-- `getTreatmentCount` from the source. -/
def getTreatmentCount (text : String) (code : String) : ℕ :=
  scanAux (code.data.map asciiLower) text.data.length none text.data

/-- `/\bwe\b/.test(...)`: whole-word occurrence test used by the classifier. -/
def hasWholeWord (code : List Char) : Option Char → List Char → Bool
  | _, [] => false
  | prev, c :: rest =>
    ((match prev with | none => true | some p => ! isWordChar p) &&
      (match matchCode code (c :: rest) with
       | some r => (match r with | [] => true | d :: _ => ! isWordChar d)
       | none => false))
    || hasWholeWord code (some c) rest

/-! ### Column scoring (the insertion-ordered `Map<number, {circ, treat}>`) -/

structure ColScore where
  circ : ℕ
  treat : ℕ
  deriving DecidableEq, Repr

abbrev ScoreMap := List (ℕ × ColScore)

/-- `getScore`: insert the index with a fresh zero score if absent
(JS `Map` keeps insertion order, so a fresh key is appended). -/
def touch (m : ScoreMap) (i : ℕ) : ScoreMap :=
  if m.any (fun p => p.1 = i) then m else m ++ [(i, ⟨0, 0⟩)]

/-- In-place mutation of the score object at a present key. -/
def upd (m : ScoreMap) (i : ℕ) (f : ColScore → ColScore) : ScoreMap :=
  m.map (fun p => if p.1 = i then (p.1, f p.2) else p)

def circKw (h : String) : Bool :=
  strIncludes h "obw" ∨ strIncludes h "cm" ∨ strIncludes h "wymiar" ∨
  strIncludes h "srednica" ∨ strIncludes h "średnica"

def treatKw (h : String) : Bool :=
  strIncludes h "zabieg" ∨ strIncludes h "czynnoś" ∨ strIncludes h "czynnos" ∨
  strIncludes h "opis" ∨ strIncludes h "kod"

/-- One header's contribution in strategy 1 (keyword weight 50). -/
def scoreHeader (m : ScoreMap) (p : ℕ × String) : ScoreMap :=
  let h := jsTrim (jsToLower p.2)
  let m1 := touch m p.1
  let m2 := if circKw h then upd m1 p.1 (fun s => { s with circ := s.circ + 50 }) else m1
  if treatKw h then upd m2 p.1 (fun s => { s with treat := s.treat + 50 }) else m2

/-- Strategy 1: header keywords, weight 50. -/
def strat1 (m : ScoreMap) (headers : List String) : ScoreMap :=
  headers.enum.foldl scoreHeader m

def csContentKw (v : String) : Bool :=
  strIncludes v "cs" ∨ strIncludes v "cięc" ∨ strIncludes v "ciec" ∨
  strIncludes v "cr" ∨ strIncludes v "cp"

/-- One non-empty cell's contribution in strategy 2. -/
def scoreCell (m : ScoreMap) (p : ℕ × String) : ScoreMap :=
  if p.2 = "" then m
  else
    let val := jsTrim p.2
    let valLower := jsToLower val
    let m1 := touch m p.1
    let m2 :=
      if csContentKw valLower then
        upd m1 p.1 (fun s => { s with treat := s.treat + 5 })
      else if strIncludes valLower "w2t" ∨ strIncludes valLower "w4t" ∨
              hasWholeWord ['w', 'e'] none valLower.data then
        upd m1 p.1 (fun s => { s with treat := s.treat + 5 })
      else if strIncludes valLower "ku" then
        upd m1 p.1 (fun s => { s with treat := s.treat + 5 })
      else if valLower = "uo" ∨ valLower = "u" ∨ valLower = "uo." ∨ valLower = "u." then
        upd m1 p.1 (fun s => { s with treat := s.treat + 2 })
      else m1
    let leading := val.data.takeWhile Char.isDigit
    if ¬ leading.isEmpty ∧ digitsVal leading ≤ 900 then
      upd m2 p.1 (fun s => { s with circ := s.circ + 1 })
    else m2

def scoreRow (m : ScoreMap) (row : List String) : ScoreMap :=
  row.enum.foldl scoreCell m

/-- Strategy 2: content analysis of every non-empty cell. -/
def strat2 (m : ScoreMap) (rows : List (List String)) : ScoreMap :=
  rows.foldl scoreRow m

/-- Both strategies, in source order. -/
def buildScores (t : ExtractedTable) : ScoreMap := strat2 (strat1 [] t.headers) t.rows

/-- One step of the selection loop. -/
def selectStep (st : Option ℕ × ℕ × Option ℕ × ℕ) (p : ℕ × ColScore) :
    Option ℕ × ℕ × Option ℕ × ℕ :=
  let (bc, mc, bt, mt) := st
  let (bc, mc) := if p.2.circ > mc then (some p.1, p.2.circ) else (bc, mc)
  let (bt, mt) := if p.2.treat > mt then (some p.1, p.2.treat) else (bt, mt)
  (bc, mc, bt, mt)

/-- The selection loop over the map entries (insertion order), with strict
greater-than against running maxima initialised at zero. -/
def selectLoop (m : ScoreMap) : Option ℕ × ℕ × Option ℕ × ℕ :=
  m.foldl selectStep (none, 0, none, 0)

/-- Column classification: scoring, selection and the same-column conflict
resolution. -/
def classify (t : ExtractedTable) : Option ℕ × Option ℕ :=
  let (bc, mc, bt, mt) := selectLoop (buildScores t)
  if bc.isSome ∧ bc = bt then
    if mt ≥ mc then (none, bt) else (bc, none)
  else (bc, bt)

/-! ### Row filtering before pricing -/

/-- Strip one trailing period (`replace(/\.$/, "")`). -/
def dropTrailingDot (s : String) : String :=
  match s.data.getLast? with
  | some '.' => String.mk (s.data.dropLast)
  | _ => s

/-- The pre-pricing row passes: header-row deduplication against the table's
own headers, then the optional removal-code (`Uo`) filter on the treatment
column. -/
def preFilteredRows (o : ProcessingOptions) (t : ExtractedTable) : List (List String) :=
  let r1 := t.rows.filter (fun row => ¬ isHeaderRow row t.headers)
  match o.removeUoRows, (classify t).2 with
  | true, some ti =>
    r1.filter (fun row =>
      let normalized := dropTrailingDot (jsToLower (jsTrim (getCell row ti)))
      ¬ (normalized = "uo" ∨ normalized = "u"))
  | _, _ => r1

/-! ### Per-row pricing -/

/-- First run of digits anywhere in the string (`match(/(\d+)/)` with
`parseInt`). -/
def firstDigitRun : List Char → Option ℕ
  | [] => none
  | c :: rest =>
    if c.isDigit then some (digitsVal ((c :: rest).takeWhile Char.isDigit))
    else firstDigitRun rest

/-- `findIndex` over the schedule for an inclusive tier containing `cm`. -/
def findTier (cm : ℕ) : Option ℕ :=
  DEFAULT_PRICING_SCHEDULE.findIdx? (fun t => decide (t.min ≤ cm ∧ cm ≤ t.max))

/-- Tier base price after the custom-price override and the rounded-up
multiplier. -/
def effectiveBasePrice (o : ProcessingOptions) (tierIndex : ℕ) : ℚ :=
  let base := ((DEFAULT_PRICING_SCHEDULE.get? tierIndex).map PricingTier.price).getD 0
  let base1 :=
    match o.customCsPrices with
    | some l => (l.get? tierIndex).getD base
    | none => base
  match o.csMultiplier with
  | some m => ((⌈base1 * m⌉ : ℤ) : ℚ)
  | none => base1

/-- The CS / CR / CP compartment contribution: each family present counts 1,
billed at the circumference tier price. -/
def csContribution (o : ProcessingOptions) (circCell treatCell : String) : ℚ :=
  let tLower := jsToLower treatCell
  let csFamilyTreatmentCount : ℕ :=
    (if strIncludes tLower "cs" ∨ strIncludes tLower "cięc" ∨ strIncludes tLower "ciec"
     then 1 else 0) +
    (if strIncludes tLower "cr" then 1 else 0) +
    (if strIncludes tLower "cp" then 1 else 0)
  if csFamilyTreatmentCount > 0 then
    match firstDigitRun circCell.data with
    | some cm =>
      match findTier cm with
      | some tierIndex => effectiveBasePrice o tierIndex * csFamilyTreatmentCount
      | none => 0
    | none => 0
  else 0

/-- The ranked crown-reduction contribution (`w4t` over `w2t` over `we`). -/
def crownContribution (o : ProcessingOptions) (treatCell : String) : ℚ :=
  let w4tCount := getTreatmentCount treatCell "w4t"
  let w2tCount := getTreatmentCount treatCell "w2t"
  let weCount := getTreatmentCount treatCell "we"
  if w4tCount > 0 then o.w4tPrice.getD 1200 * w4tCount
  else if w2tCount > 0 then o.w2tPrice.getD 800 * w2tCount
  else if weCount > 0 then o.wePrice.getD 800 * weCount
  else 0

/-- The independent maintenance (`ku`) contribution. -/
def kuContribution (o : ProcessingOptions) (treatCell : String) : ℚ :=
  let kuCount := getTreatmentCount treatCell "ku"
  if kuCount > 0 then o.kuPrice.getD 500 * kuCount else 0

/-- The full net price of one row. -/
def rowNetPrice (o : ProcessingOptions) (ci ti : ℕ) (row : List String) : ℚ :=
  csContribution o (getCell row ci) (getCell row ti) +
  crownContribution o (getCell row ti) +
  kuContribution o (getCell row ti)

/-- The pricing loop: rows with positive net price get the two formatted
price cells appended and feed the totals; zero-priced rows are kept with two
empty cells or dropped under `removeZeroPriceRows`. -/
def priceRows (o : ProcessingOptions) (ci ti : ℕ) :
    List (List String) → List (List String) × ℚ × ℚ
  | [] => ([], 0, 0)
  | row :: rest =>
    let r := priceRows o ci ti rest
    let net := rowNetPrice o ci ti row
    if net > 0 then
      ((row ++ [formatPrice net, formatPrice (net * (1 + VAT_RATE))]) :: r.1,
       net + r.2.1, net * (1 + VAT_RATE) + r.2.2)
    else if o.removeZeroPriceRows then r
    else ((row ++ ["", ""]) :: r.1, r.2.1, r.2.2)

/-! ### Header renaming -/

def circLabel : String := "Obwód pnia\nmierz.\nna wys. 130 cm\n[cm]"
def treatLabel : String := "Zabiegi\npielęgnacyjne"
def nettoLabel : String := "Wartość\nzabiegów\npielęgnacyjnych\n[netto]\n[PLN]"
def bruttoLabel : String := "Wartość\nzabiegów\npielęgnacyjnych\n[brutto]\n[PLN]"
def speciesLabel : String := "Nazwa gatunku\n[polska/łacińska]"

/-- Rename the classified circumference column when its header is truthy. -/
def renameCirc (ci : ℕ) (hs : List String) : List String :=
  if (hs.get? ci).getD "" ≠ "" then hs.set ci circLabel else hs

/-- Rename the classified treatment column when its header is truthy. -/
def renameTreat (ti : ℕ) (hs : List String) : List String :=
  if (hs.get? ti).getD "" ≠ "" then hs.set ti treatLabel else hs

/-- The ordinal fallback at column 0. -/
def renameLp (hs : List String) : List String :=
  if hs.length > 0 then
    let h0 := jsToLower ((hs.get? 0).getD "")
    if strIncludes h0 "lp" ∨ h0 = "1" ∨ h0 = "" ∨ h0 = "no" then hs.set 0 "Lp."
    else hs
  else hs

/-- The species fallback at column 1, skipped when either classified column
is column 1. -/
def renameSpecies (ci ti : ℕ) (hs : List String) : List String :=
  if hs.length > 1 ∧ ci ≠ 1 ∧ ti ≠ 1 then
    let hh := jsToLower ((hs.get? 1).getD "")
    if strIncludes hh "gatun" ∨ strIncludes hh "nazwa" ∨ hh = "" then hs.set 1 speciesLabel
    else hs
  else hs

/-- The deterministic relabelling substitutions, in source order: the
classified circumference and treatment columns, then the ordinal fallback at
column 0 and the species fallback at column 1. -/
def relabelHeaders (ci ti : ℕ) (headers : List String) : List String :=
  renameSpecies ci ti (renameLp (renameTreat ti (renameCirc ci headers)))

/-- The ordinal-fallback condition of `renameLp`, abbreviated. -/
def lpCond (s : String) : Prop :=
  strIncludes (jsToLower s) "lp" ∨ jsToLower s = "1" ∨ jsToLower s = "" ∨ jsToLower s = "no"

instance (s : String) : Decidable (lpCond s) := by unfold lpCond; infer_instance

/-- The species-fallback condition of `renameSpecies`, abbreviated. -/
def spCond (s : String) : Prop :=
  strIncludes (jsToLower s) "gatun" ∨ strIncludes (jsToLower s) "nazwa" ∨ jsToLower s = ""

instance (s : String) : Decidable (spCond s) := by unfold spCond; infer_instance


/-- The full header step: relabelling plus appending of the two value labels
(only when the header list is non-empty). -/
def renameStep (ci ti : ℕ) (headers : List String) : List String :=
  let h := relabelHeaders ci ti headers
  if h.length > 0 then h ++ [nettoLabel, bruttoLabel] else h

/-! ### Final cleanup and the assembled pipeline -/

/-- Drop rows whose every cell after the first is blank. -/
def nonEmptyRowsOf (rows : List (List String)) : List (List String) :=
  rows.filter (fun row => (row.drop 1).any (fun cell => jsTrim cell ≠ ""))

/-- Digits-and-dots test (`/^[\d.]+$/`). -/
def isNumDotStr (s : String) : Bool :=
  ¬ s.isEmpty ∧ s.data.all (fun c => c.isDigit ∨ c = '.')

/-- Sequential renumbering of the first column for numeral-shaped ordinals. -/
def renumberRows (rows : List (List String)) : List (List String) :=
  rows.mapIdx (fun index row =>
    let firstCell := getCell row 0
    if firstCell ≠ "" ∧ isNumDotStr (jsTrim firstCell) then
      row.set 0 (natToString (index + 1))
    else row)

/-- Processing of one logical table: classification, filtering, pricing,
header renaming and cleanup; returns the processed table and its net and
gross totals contribution. -/
def processOne (o : ProcessingOptions) (t : ExtractedTable) : ExtractedTable × ℚ × ℚ :=
  let rowsToProcess := preFilteredRows o t
  match classify t with
  | (some ci, some ti) =>
    let newHeaders := renameStep ci ti t.headers
    let pr := priceRows o ci ti rowsToProcess
    let nonEmptyRows := nonEmptyRowsOf pr.1
    let finalRows :=
      if ¬ o.preserveLp ∧ nonEmptyRows.length > 0 then renumberRows nonEmptyRows
      else nonEmptyRows
    ({ t with headers := newHeaders, rows := finalRows }, pr.2.1, pr.2.2)
  | _ => ({ t with rows := rowsToProcess }, 0, 0)

structure ProcessingResult where
  processedTables : List ExtractedTable
  totals : CalculatedTotals
  deriving DecidableEq, Repr

/-- `processTablesWithPricing`: merge fragments, process each logical table,
round the accumulated totals to two decimals. -/
def processTablesWithPricing (rawTables : List ExtractedTable)
    (options : ProcessingOptions) : ProcessingResult :=
  let tables := mergeCompatibleTables rawTables
  let results := tables.map (processOne options)
  { processedTables := results.map Prod.fst,
    totals :=
      { totalNetto := round2 ((results.map (fun r => r.2.1)).sum),
        totalBrutto := round2 ((results.map (fun r => r.2.2)).sum) } }

/-- The per-table list of positive row net prices: the amounts of exactly
those rows that receive a non-empty net price cell. -/
def tableNetList (o : ProcessingOptions) (t : ExtractedTable) : List ℚ :=
  match classify t with
  | (some ci, some ti) =>
    ((preFilteredRows o t).map (rowNetPrice o ci ti)).filter (fun q => 0 < q)
  | _ => []

/-! ### Specification-side definitions, written from the spec's words,
for comparison with the source-derived definitions above. -/

/-- The keys of a score map, in insertion order. -/
def keysOf (m : ScoreMap) : List ℕ := m.map Prod.fst

/-- One step of the one-dimensional best-pick fold. -/
def pickStep (st : Option ℕ × ℕ) (p : ℕ × ℕ) : Option ℕ × ℕ :=
  if p.2 > st.2 then (some p.1, p.2) else st

/-- One-dimensional best-pick fold used to analyse `selectLoop`. -/
def pickAux (st : Option ℕ × ℕ) (l : List (ℕ × ℕ)) : Option ℕ × ℕ :=
  l.foldl pickStep st

/-- State of the ascending-index scan the spec words: indices `0` to `n - 1`
in ascending order, strict greater-than against a running maximum
initialised at zero. -/
def specFoldState (n : ℕ) (f : ℕ → ℕ) : Option ℕ × ℕ :=
  (List.range n).foldl
    (fun st i => if f i > st.2 then (some i, f i) else st)
    ((none : Option ℕ), 0)

/-- Ascending-index selection as the spec words it. -/
def specSelectAsc (n : ℕ) (f : ℕ → ℕ) : Option ℕ := (specFoldState n f).1

/-- Score lookup by column index in the score map. -/
def scoreOf (m : ScoreMap) (i : ℕ) : ColScore := (m.lookup i).getD ⟨0, 0⟩

/-- The adjacent multiplier of one occurrence, as the spec words it: a
number immediately before the code (optionally separated by the letter `x`)
or immediately after it (separated by `x`), defaulting to 1.  `beforeRev`
is the text before the occurrence, reversed. -/
def specAdjMult (beforeRev after : List Char) : ℕ :=
  let b1 := beforeRev.dropWhile isJsSpace
  let b2 :=
    match b1 with
    | c :: r => if asciiLower c = 'x' then r.dropWhile isJsSpace else b1
    | [] => b1
  let dg := b2.takeWhile Char.isDigit
  if ¬ dg.isEmpty then digitsVal dg.reverse
  else
    match after.dropWhile isJsSpace with
    | c :: r =>
      if asciiLower c = 'x' then
        let dg2 := (r.dropWhile isJsSpace).takeWhile Char.isDigit
        if ¬ dg2.isEmpty then digitsVal dg2 else 1
      else 1
    | [] => 1

/-- Sum of adjacent multipliers over all case-insensitive whole-word
occurrences of the code, as the claim words the counting primitive. -/
def specMultiplierCountAux (code : List Char) (beforeRev : List Char) :
    List Char → ℕ
  | [] => 0
  | c :: rest =>
    let here : ℕ :=
      if (match beforeRev with | [] => true | p :: _ => ! isWordChar p) then
        match matchCode code (c :: rest) with
        | some r =>
          if (match r with | [] => true | d :: _ => ! isWordChar d) then
            specAdjMult beforeRev r
          else 0
        | none => 0
      else 0
    here + specMultiplierCountAux code (c :: beforeRev) rest

def specMultiplierCount (text code : String) : ℕ :=
  specMultiplierCountAux (code.data.map asciiLower) [] text.data

/-! ### Concrete example tables used by witnesses and counterexamples -/

/-- The spec's end-to-end example table. -/
def exTable : ExtractedTable :=
  { title := none,
    headers := ["Lp", "Gatunek", "Obwód", "Zabiegi"],
    rows := [["1", "Dąb", "120", "CS"]] }

/-- Headerless table whose score-map insertion order is `[1, 2, 0]`:
column 1 is touched before column 0, and both carry circumference score 1. -/
def exRagged : ExtractedTable :=
  { title := none,
    headers := [],
    rows := [["", "120", "CS"], ["300", "", ""]] }

/-- Table whose zero-priced second row becomes header-like against the
renamed output headers. -/
def exHeaderLike : ExtractedTable :=
  { title := none,
    headers := ["obw", "kod"],
    rows := [["120", "cs"], ["1", "zz"]] }

/-- Headerless table whose columns are both resolved from content alone. -/
def exNoHeaders : ExtractedTable :=
  { title := none,
    headers := [],
    rows := [["120", "cs"]] }

/-!  ## Theorems  -/

set_option maxRecDepth 10000

/-- C4: for the single input table with headers `["Lp","Gatunek","Obwód",
"Zabiegi"]` and the one row `["1","Dąb","120","CS"]`, processed under the
default schedule with empty options, the appended net cell is `"792"`, the
gross cell is `"855.36"`, and the totals are `792.00` and `855.36`. -/
theorem end_to_end_example :
    (processTablesWithPricing [exTable] {}).processedTables.map ExtractedTable.rows =
      [[["1", "Dąb", "120", "CS", "792", "855.36"]]] ∧
    (processTablesWithPricing [exTable] {}).totals.totalNetto = 792 ∧
    (processTablesWithPricing [exTable] {}).totals.totalBrutto = 85536/100 := by
  refine ⟨?_, ?_, ?_⟩ <;> decide

/-- C3 (counterexample): on the cell text `"2 w4t"`, the count described by
the claim — a number immediately before the code, the separating `x` being
optional — is 2, while `getTreatmentCount` yields 1: the numeric prefix of
the source's pattern requires the letter `x`. -/
theorem multiplier_before_requires_x :
    specMultiplierCount "2 w4t" "w4t" = 2 ∧ getTreatmentCount "2 w4t" "w4t" = 1 := by
  decide

/-- C3 (amended): the count is a left-to-right scan that consumes matched
text; an occurrence's multiplier is a number separated from the code by the
letter `x` (whitespace around the `x` optional), before or after, defaulting
to 1; occurrences are summed; a number separated by whitespace alone is not
a multiplier, and a number already consumed as one occurrence's suffix
multiplier cannot serve as the next occurrence's prefix multiplier. -/
theorem getTreatmentCount_multiplier_laws :
    getTreatmentCount "2x W4t" "w4t" = 2 ∧
    getTreatmentCount "W4t x 3" "w4t" = 3 ∧
    getTreatmentCount "W4t" "w4t" = 1 ∧
    getTreatmentCount "w4t, w4t" "w4t" = 2 ∧
    getTreatmentCount "2 w4t" "w4t" = 1 ∧
    getTreatmentCount "w4t x 2x w4t" "w4t" = 3 := by
  decide

/-- C5 (counterexample): for the headerless table `exRagged` the score-map
insertion order is `[1, 2, 0]`; columns 0 and 1 tie on circumference
evidence 1, the ascending-index rule of the claim picks column 0, but the
selection loop picks column 1. -/
theorem selection_order_counterexample :
    specSelectAsc 3 (fun i => (scoreOf (buildScores exRagged) i).circ) = some 0 ∧
    (selectLoop (buildScores exRagged)).1 = some 1 ∧
    (classify exRagged).1 = some 1 := by
  decide

/-- C6 (counterexample): in the processed output of `exHeaderLike` (with
`preserveLp` so the ordinal survives), the zero-priced second row
`["1","zz","",""]` is judged a header row by `isHeaderRow` against that same
output table's own (renamed and extended) header list. -/
theorem header_purge_counterexample :
    ((processTablesWithPricing [exHeaderLike] { preserveLp := true }).processedTables.getD
        0 default).rows.getD 1 [] = ["1", "zz", "", ""] ∧
    isHeaderRow ["1", "zz", "", ""]
      ((processTablesWithPricing [exHeaderLike] { preserveLp := true }).processedTables.getD
        0 default).headers = true := by
  refine ⟨?_, ?_⟩ <;> decide

/-- C8 (counterexample): the header step appends the two value labels on
every application, so applying it twice to an already-canonical header list
(the output of one application) differs from applying it once. -/
theorem rename_twice_ne_once :
    renameStep 2 3 (renameStep 2 3 (renameStep 2 3 exTable.headers)) ≠
      renameStep 2 3 (renameStep 2 3 exTable.headers) := by
  decide

/-- C2: with the treatment cell fixed, the row's net price decomposes into
the three family contributions, and the crown contribution bills only the
highest-ranked code present — `w4t` over `w2t` over `we` — at its flat price
times its count; with `w4t` present, the `w2t` and `we` prices are
irrelevant to the row's net price. -/
theorem crown_priority (o : ProcessingOptions) (ci ti : ℕ) (row : List String) :
    rowNetPrice o ci ti row =
      csContribution o (getCell row ci) (getCell row ti) +
      crownContribution o (getCell row ti) + kuContribution o (getCell row ti) ∧
    (0 < getTreatmentCount (getCell row ti) "w4t" →
      crownContribution o (getCell row ti) =
        o.w4tPrice.getD 1200 * getTreatmentCount (getCell row ti) "w4t") ∧
    (getTreatmentCount (getCell row ti) "w4t" = 0 →
      0 < getTreatmentCount (getCell row ti) "w2t" →
      crownContribution o (getCell row ti) =
        o.w2tPrice.getD 800 * getTreatmentCount (getCell row ti) "w2t") ∧
    (getTreatmentCount (getCell row ti) "w4t" = 0 →
      getTreatmentCount (getCell row ti) "w2t" = 0 →
      0 < getTreatmentCount (getCell row ti) "we" →
      crownContribution o (getCell row ti) =
        o.wePrice.getD 800 * getTreatmentCount (getCell row ti) "we") ∧
    (0 < getTreatmentCount (getCell row ti) "w4t" →
      ∀ p q : Option ℚ,
        rowNetPrice { o with w2tPrice := p, wePrice := q } ci ti row =
          rowNetPrice o ci ti row) := by
  refine ⟨rfl, ?_, ?_, ?_, ?_⟩
  · intro h4
    simp [crownContribution, h4]
  · intro h40 h2
    simp [crownContribution, h40, h2]
  · intro h40 h20 he
    simp [crownContribution, h40, h20, he]
  · intro h4 p q
    simp [rowNetPrice, csContribution, crownContribution, kuContribution,
      effectiveBasePrice, h4]

/-- C2 (witness): on the cell `"w4t w2t"` the `w4t` count is positive and
the crown contribution is the `w4t` price times that count. -/
theorem crown_priority_witness :
    0 < getTreatmentCount "w4t w2t" "w4t" ∧
    crownContribution {} "w4t w2t" =
      ({} : ProcessingOptions).w4tPrice.getD 1200 * getTreatmentCount "w4t w2t" "w4t" := by
  refine ⟨by decide, ?_⟩
  exact (crown_priority {} 0 1 ["", "w4t w2t"]).2.1 (by decide)

/-- C6 (amended): every row surviving the pre-pricing filter is not judged a
header row against the table's own original (pre-renaming) header list; the
published output rows, with price cells appended, ordinals rewritten and
headers renamed, can nevertheless be judged header-like against the output
header list, as the counterexample shows. -/
theorem prefiltered_rows_not_header (o : ProcessingOptions) (t : ExtractedTable)
    (r : List String) (hr : r ∈ preFilteredRows o t) :
    isHeaderRow r t.headers = false := by
  have hr1 : r ∈ t.rows.filter (fun row => ¬ isHeaderRow row t.headers) := by
    unfold preFilteredRows at hr
    cases hu : o.removeUoRows with
    | false => simpa [hu] using hr
    | true =>
      cases hc : (classify t).2 with
      | none => simpa [hu, hc] using hr
      | some ti =>
        rw [hu, hc] at hr
        exact List.mem_of_mem_filter hr
  have := (List.mem_filter.mp hr1).2
  simpa using this

/-- C6 (amended, witness): the example table's only row survives the filter
and is not header-like against the original headers. -/
theorem prefiltered_rows_not_header_witness :
    isHeaderRow ["1", "Dąb", "120", "CS"] exTable.headers = false :=
  prefiltered_rows_not_header {} exTable ["1", "Dąb", "120", "CS"] (by decide)

/-- C7: the pipeline is total and degrades gracefully: it yields one output
table per merged logical table; a table with an unresolved circumference or
treatment column is returned filtered but unpriced with zero contribution;
a ragged row reads as the empty cell beyond its length; an unparseable or
out-of-range circumference contributes zero compartment price; an occurrence
without a multiplier counts 1.  (`isHeaderRow` and every other embedded
function is total by construction.) -/
theorem processing_total_graceful :
    (∀ (ts : List ExtractedTable) (o : ProcessingOptions),
      (processTablesWithPricing ts o).processedTables.length =
        (mergeCompatibleTables ts).length) ∧
    (∀ (o : ProcessingOptions) (t : ExtractedTable),
      (classify t).1 = none ∨ (classify t).2 = none →
      processOne o t = ({ t with rows := preFilteredRows o t }, 0, 0)) ∧
    (∀ (row : List String) (i : ℕ), row.length ≤ i → getCell row i = "") ∧
    (∀ (o : ProcessingOptions) (c tr : String), firstDigitRun c.data = none →
      csContribution o c tr = 0) ∧
    (∀ (o : ProcessingOptions) (c tr : String) (cm : ℕ), firstDigitRun c.data = some cm →
      findTier cm = none → csContribution o c tr = 0) ∧
    getTreatmentCount "KU" "ku" = 1 := by
  refine ⟨?_, ?_, ?_, ?_, ?_, by decide⟩
  · intro ts o
    simp [processTablesWithPricing]
  · intro o t h
    rcases hc : classify t with ⟨bc, bt⟩
    rw [hc] at h
    cases bc with
    | none => simp [processOne, hc]
    | some ci =>
      cases bt with
      | none => simp [processOne, hc]
      | some ti => simp at h
  · intro row i h
    simp [getCell, List.getElem?_eq_none h]
  · intro o c tr h
    simp [csContribution, h]
  · intro o c tr cm h1 h2
    simp [csContribution, h1, h2]

/-- C7 (witness): concrete instances of the graceful-degradation clauses. -/
theorem processing_total_graceful_witness :
    (processTablesWithPricing [] {}).processedTables.length =
      (mergeCompatibleTables []).length ∧
    processOne {} { title := none, headers := [], rows := [] } =
      ({ ({ title := none, headers := [], rows := [] } : ExtractedTable) with
          rows := preFilteredRows {} { title := none, headers := [], rows := [] } }, 0, 0) ∧
    getCell [] 0 = "" ∧
    csContribution {} "abc" "cs" = 0 ∧
    csContribution {} "999" "cs" = 0 :=
  ⟨processing_total_graceful.1 [] {},
   processing_total_graceful.2.1 {} _ (Or.inl (by decide)),
   processing_total_graceful.2.2.1 [] 0 (by decide),
   processing_total_graceful.2.2.2.1 {} "abc" "cs" (by decide),
   processing_total_graceful.2.2.2.2.1 {} "999" "cs" 999 (by decide) (by decide)⟩

/-- The pricing loop's accumulators are the sums over the positive row net
prices (and their gross counterparts). -/
theorem priceRows_totals (o : ProcessingOptions) (ci ti : ℕ) (rows : List (List String)) :
    (priceRows o ci ti rows).2.1 =
      ((rows.map (rowNetPrice o ci ti)).filter (fun q => 0 < q)).sum ∧
    (priceRows o ci ti rows).2.2 =
      (((rows.map (rowNetPrice o ci ti)).filter (fun q => 0 < q)).map
        (fun q => q * (1 + VAT_RATE))).sum := by
  induction rows with
  | nil => simp [priceRows]
  | cons row rest ih =>
    simp only [priceRows, List.map_cons, List.filter_cons]
    by_cases h : 0 < rowNetPrice o ci ti row
    · simp [h, ih.1, ih.2]
    · by_cases hz : o.removeZeroPriceRows <;> simp [h, hz, ih.1, ih.2]

/-- Per-table totals contributions are the sums of the per-table positive
row net price list. -/
theorem processOne_totals (o : ProcessingOptions) (t : ExtractedTable) :
    (processOne o t).2.1 = (tableNetList o t).sum ∧
    (processOne o t).2.2 = ((tableNetList o t).map (fun q => q * (1 + VAT_RATE))).sum := by
  rcases hc : classify t with ⟨bc, bt⟩
  cases bc with
  | none => simp [processOne, tableNetList, hc]
  | some ci =>
    cases bt with
    | none => simp [processOne, tableNetList, hc]
    | some ti =>
      have h := priceRows_totals o ci ti (preFilteredRows o t)
      simp [processOne, tableNetList, hc, h.1, h.2]

/-- Rounding to two decimals moves a value by at most a cent. -/
theorem round2_sub_le (s : ℚ) : |round2 s - s| ≤ 1/100 := by
  have h1 : ((⌊s * 100 + 1/2⌋ : ℤ) : ℚ) ≤ s * 100 + 1/2 := Int.floor_le _
  have h2 : s * 100 + 1/2 < (⌊s * 100 + 1/2⌋ : ℤ) + 1 := Int.lt_floor_add_one _
  rw [round2, abs_le]
  constructor <;> linarith

/-- C1: the returned `totalNetto` is the rounding, after full accumulation,
of the sum over all processed tables of all their positive (that is,
non-empty-cell) row net prices; `totalBrutto` is the analogous rounded sum
of the per-row gross prices `net * (1 + VAT_RATE)` (that is, `net × 1.08`);
and the rounding agrees with the unrounded sum within `0.01`. -/
theorem totals_eq_sum_of_row_nets (rawTables : List ExtractedTable)
    (o : ProcessingOptions) :
    (processTablesWithPricing rawTables o).totals.totalNetto =
      round2 (((mergeCompatibleTables rawTables).map
        (fun t => (tableNetList o t).sum)).sum) ∧
    (processTablesWithPricing rawTables o).totals.totalBrutto =
      round2 (((mergeCompatibleTables rawTables).map
        (fun t => ((tableNetList o t).map (fun q => q * (1 + VAT_RATE))).sum)).sum) ∧
    |(processTablesWithPricing rawTables o).totals.totalNetto -
      ((mergeCompatibleTables rawTables).map (fun t => (tableNetList o t).sum)).sum| ≤
        1/100 := by
  have hn :
      (processTablesWithPricing rawTables o).totals.totalNetto =
        round2 (((mergeCompatibleTables rawTables).map
          (fun t => (tableNetList o t).sum)).sum) := by
    simp only [processTablesWithPricing, List.map_map]
    congr 1
    congr 1
    exact List.map_congr_left (fun t _ => (processOne_totals o t).1)
  refine ⟨hn, ?_, ?_⟩
  · simp only [processTablesWithPricing, List.map_map]
    congr 1
    congr 1
    exact List.map_congr_left (fun t _ => (processOne_totals o t).2)
  · rw [hn]
    exact round2_sub_le _

theorem dropWhile_eq_self_of (p : Char → Bool) :
    ∀ m : List Char, (∀ c ∈ m, p c = false) → m.dropWhile p = m := by
  intro m h
  cases m with
  | nil => rfl
  | cons c cs => simp [List.dropWhile_cons, h c (by simp)]

theorem jsTrim_mk_ne_empty (l : List Char) (hne : l ≠ [])
    (hall : ∀ c ∈ l, isJsSpace c = false) : jsTrim (String.mk l) ≠ "" := by
  have h1 : l.dropWhile isJsSpace = l := dropWhile_eq_self_of _ l hall
  have h2 : l.reverse.dropWhile isJsSpace = l.reverse :=
    dropWhile_eq_self_of _ l.reverse (fun c hc => hall c (List.mem_reverse.mp hc))
  simp only [jsTrim, h1, h2, List.reverse_reverse]
  intro h
  exact hne (by simpa using congrArg String.data h)

theorem digitChar_not_space (d : ℕ) : isJsSpace (digitChar d) = false := by
  rcases d with _|_|_|_|_|_|_|_|_|d <;> rfl

theorem mem_natDigitsAux_not_space :
    ∀ (fuel n : ℕ) (c : Char), c ∈ natDigitsAux fuel n → isJsSpace c = false := by
  intro fuel
  induction fuel with
  | zero => simp [natDigitsAux]
  | succ f ih =>
    intro n c hc
    unfold natDigitsAux at hc
    by_cases h : n < 10
    · rw [if_pos h] at hc
      simp at hc
      rw [hc]
      exact digitChar_not_space n
    · rw [if_neg h] at hc
      rcases List.mem_append.mp hc with h1 | h1
      · exact ih _ _ h1
      · simp at h1
        rw [h1]
        exact digitChar_not_space _

theorem natDigitsAux_ne_nil (f n : ℕ) : natDigitsAux (f + 1) n ≠ [] := by
  unfold natDigitsAux
  by_cases h : n < 10 <;> simp [h]

theorem data_append (a b : String) : (a ++ b).data = a.data ++ b.data := rfl

theorem formatPrice_data (q : ℚ) :
    (formatPrice q).data ≠ [] ∧ ∀ c ∈ (formatPrice q).data, isJsSpace c = false := by
  unfold formatPrice
  set n : ℕ := (⌊q * 100 + 1/2⌋).toNat with hn
  by_cases h : n % 100 = 0
  · rw [if_pos h]
    exact ⟨natDigitsAux_ne_nil _ _, fun c hc => mem_natDigitsAux_not_space _ _ c hc⟩
  · rw [if_neg h]
    have hdata :
        (natToString (n / 100) ++ "." ++ pad2 (n % 100)).data =
          natDigits (n / 100) ++ '.' :: (pad2 (n % 100)).data := by
      simp [data_append, natToString]
    constructor
    · rw [hdata]
      simp
    · intro c hc
      rw [hdata] at hc
      rcases List.mem_append.mp hc with h1 | h1
      · exact mem_natDigitsAux_not_space _ _ c h1
      · rcases List.mem_cons.mp h1 with h2 | h2
        · rw [h2]; decide
        · unfold pad2 at h2
          by_cases hk : n % 100 < 10
          · rw [if_pos hk] at h2
            rcases List.mem_cons.mp h2 with h3 | h3
            · rw [h3]; decide
            · exact mem_natDigitsAux_not_space _ _ c h3
          · rw [if_neg hk] at h2
            exact mem_natDigitsAux_not_space _ _ c h2

theorem formatPrice_trim_ne (q : ℚ) : jsTrim (formatPrice q) ≠ "" := by
  have h := formatPrice_data q
  have : formatPrice q = String.mk (formatPrice q).data := rfl
  rw [this]
  exact jsTrim_mk_ne_empty _ h.1 h.2

/-- A row with positive net price is pushed, with both formatted price
cells, by the pricing loop. -/
theorem mem_priceRows_of_pos (o : ProcessingOptions) (ci ti : ℕ)
    (rows : List (List String)) (r : List String) (hr : r ∈ rows)
    (hp : 0 < rowNetPrice o ci ti r) :
    (r ++ [formatPrice (rowNetPrice o ci ti r),
           formatPrice (rowNetPrice o ci ti r * (1 + VAT_RATE))]) ∈
      (priceRows o ci ti rows).1 := by
  induction rows with
  | nil => cases hr
  | cons row rest ih =>
    rcases List.mem_cons.mp hr with h | h
    · subst h
      simp [priceRows, hp]
    · have hmem := ih h
      simp only [priceRows]
      by_cases h1 : 0 < rowNetPrice o ci ti row
      · simp [h1, hmem]
      · by_cases h2 : o.removeZeroPriceRows <;> simp [h1, h2, hmem]

/-- Every row produced by the pricing loop is an input row with two cells
appended. -/
theorem priceRows_shape (o : ProcessingOptions) (ci ti : ℕ)
    (rows : List (List String)) :
    ∀ r' ∈ (priceRows o ci ti rows).1, ∃ r ∈ rows, ∃ a b : String, r' = r ++ [a, b] := by
  induction rows with
  | nil => simp [priceRows]
  | cons row rest ih =>
    intro r' hr'
    simp only [priceRows] at hr'
    by_cases h1 : 0 < rowNetPrice o ci ti row
    · rw [if_pos h1] at hr'
      rcases List.mem_cons.mp hr' with h | h
      · exact ⟨row, by simp, _, _, h⟩
      · obtain ⟨r, hr, a, b, he⟩ := ih r' h
        exact ⟨r, by simp [hr], a, b, he⟩
    · rw [if_neg h1] at hr'
      by_cases h2 : o.removeZeroPriceRows
      · rw [if_pos h2] at hr'
        obtain ⟨r, hr, a, b, he⟩ := ih r' hr'
        exact ⟨r, by simp [hr], a, b, he⟩
      · rw [if_neg h2] at hr'
        rcases List.mem_cons.mp hr' with h | h
        · exact ⟨row, by simp, _, _, h⟩
        · obtain ⟨r, hr, a, b, he⟩ := ih r' h
          exact ⟨r, by simp [hr], a, b, he⟩

theorem gross_cell_mem_drop (r : List String) (a b : String) :
    b ∈ (r ++ [a, b]).drop 1 := by
  cases r with
  | nil => simp
  | cons x xs => simp

/-- A row whose appended gross cell is non-blank survives the empty-row
cleanup. -/
theorem mem_nonEmptyRowsOf (l : List (List String)) (r : List String) (a b : String)
    (hmem : (r ++ [a, b]) ∈ l) (hb : jsTrim b ≠ "") :
    (r ++ [a, b]) ∈ nonEmptyRowsOf l := by
  refine List.mem_filter.mpr ⟨hmem, ?_⟩
  simp only [List.any_eq_true]
  exact ⟨b, gross_cell_mem_drop r a b, by simpa using hb⟩

/-- Renumbering maps each row to itself or to itself with the first cell
replaced. -/
theorem renumber_mem (l : List (List String)) (r' : List String) (h : r' ∈ l) :
    ∃ r'' ∈ renumberRows l, r'' = r' ∨ ∃ s, r'' = r'.set 0 s := by
  obtain ⟨⟨i, hi⟩, hget⟩ := List.mem_iff_get.mp h
  have hlen : i < (renumberRows l).length := by
    simpa [renumberRows, List.length_mapIdx] using hi
  refine ⟨(renumberRows l).get ⟨i, hlen⟩, List.get_mem _ _ _, ?_⟩
  have := List.get_mapIdx l
    (fun index row =>
      if getCell row 0 ≠ "" ∧ isNumDotStr (jsTrim (getCell row 0)) then
        row.set 0 (natToString (index + 1))
      else row) i hi hlen
  simp only [renumberRows]
  rw [this, hget]
  by_cases hcond : getCell r' 0 ≠ "" ∧ isNumDotStr (jsTrim (getCell r' 0))
  · exact Or.inr ⟨_, by rw [if_pos hcond]⟩
  · exact Or.inl (by rw [if_neg hcond])

/-- Conversely, every renumbered row comes from a row of the input list,
unchanged except possibly in its first cell. -/
theorem renumber_shape (l : List (List String)) :
    ∀ r' ∈ renumberRows l, ∃ rr ∈ l, r' = rr ∨ ∃ s, r' = rr.set 0 s := by
  intro r' h
  obtain ⟨⟨i, hi⟩, hget⟩ := List.mem_iff_get.mp h
  have hil : i < l.length := by
    simpa [renumberRows, List.length_mapIdx] using hi
  have := List.get_mapIdx l
    (fun index row =>
      if getCell row 0 ≠ "" ∧ isNumDotStr (jsTrim (getCell row 0)) then
        row.set 0 (natToString (index + 1))
      else row) i hil hi
  simp only [renumberRows] at hget
  rw [this] at hget
  refine ⟨l.get ⟨i, hil⟩, List.get_mem _ _ _, ?_⟩
  by_cases hcond : getCell (l.get ⟨i, hil⟩) 0 ≠ "" ∧
      isNumDotStr (jsTrim (getCell (l.get ⟨i, hil⟩) 0))
  · rw [if_pos hcond] at hget
    exact Or.inr ⟨_, hget.symm⟩
  · rw [if_neg hcond] at hget
    exact Or.inl hget.symm

/-- C9: a row whose computed net price is strictly positive always appears
in the final output row list, with its two appended formatted price cells
and possibly a rewritten first cell: neither the empty-row cleanup nor the
ordinal renumbering removes a row that contributed to the totals. -/
theorem positive_rows_retained (o : ProcessingOptions) (t : ExtractedTable)
    (ci ti : ℕ) (hc : classify t = (some ci, some ti)) (r : List String)
    (hr : r ∈ preFilteredRows o t) (hp : 0 < rowNetPrice o ci ti r) :
    ∃ r' ∈ (processOne o t).1.rows,
      r' = r ++ [formatPrice (rowNetPrice o ci ti r),
                 formatPrice (rowNetPrice o ci ti r * (1 + VAT_RATE))] ∨
      ∃ s, r' = (r ++ [formatPrice (rowNetPrice o ci ti r),
                 formatPrice (rowNetPrice o ci ti r * (1 + VAT_RATE))]).set 0 s := by
  have h1 := mem_priceRows_of_pos o ci ti (preFilteredRows o t) r hr hp
  have h2 := mem_nonEmptyRowsOf _ _ _ _ h1 (formatPrice_trim_ne _)
  simp only [processOne, hc]
  by_cases hcond : ¬ o.preserveLp ∧
      (nonEmptyRowsOf (priceRows o ci ti (preFilteredRows o t)).1).length > 0
  · rw [if_pos hcond]
    obtain ⟨r'', hmem, hor⟩ := renumber_mem _ _ h2
    exact ⟨r'', hmem, hor⟩
  · rw [if_neg hcond]
    exact ⟨_, h2, Or.inl rfl⟩

/-- C9 (witness): the priced example row appears in the output. -/
theorem positive_rows_retained_witness :
    ∃ r' ∈ (processOne {} exTable).1.rows,
      r' = ["1", "Dąb", "120", "CS"] ++
            [formatPrice (rowNetPrice {} 2 3 ["1", "Dąb", "120", "CS"]),
             formatPrice (rowNetPrice {} 2 3 ["1", "Dąb", "120", "CS"] * (1 + VAT_RATE))] ∨
      ∃ s, r' = (["1", "Dąb", "120", "CS"] ++
            [formatPrice (rowNetPrice {} 2 3 ["1", "Dąb", "120", "CS"]),
             formatPrice (rowNetPrice {} 2 3 ["1", "Dąb", "120", "CS"] * (1 + VAT_RATE))]).set
              0 s :=
  positive_rows_retained {} exTable 2 3 (by decide) ["1", "Dąb", "120", "CS"]
    (by decide) (by decide)

/-- C10: when a table's header list is empty but both columns are resolved
from content, the processed headers stay empty — no canonical labels and no
net/gross labels are appended — while every retained output row is an input
row with the two price cells appended (its first cell possibly rewritten). -/
theorem empty_headers_stay_empty (o : ProcessingOptions) (t : ExtractedTable)
    (ci ti : ℕ) (hh : t.headers = []) (hc : classify t = (some ci, some ti)) :
    (processOne o t).1.headers = [] ∧
    ∀ r' ∈ (processOne o t).1.rows, ∃ r ∈ preFilteredRows o t, ∃ a b : String,
      r' = r ++ [a, b] ∨ ∃ s, r' = (r ++ [a, b]).set 0 s := by
  constructor
  · simp [processOne, hc, renameStep, relabelHeaders, renameCirc, renameTreat,
      renameLp, renameSpecies, hh]
  · intro r' hr'
    simp only [processOne, hc] at hr'
    by_cases hcond : ¬ o.preserveLp ∧
        (nonEmptyRowsOf (priceRows o ci ti (preFilteredRows o t)).1).length > 0
    · rw [if_pos hcond] at hr'
      obtain ⟨rr, hrr, hor⟩ := renumber_shape _ r' hr'
      obtain ⟨r, hr, a, b, he⟩ :=
        priceRows_shape o ci ti (preFilteredRows o t) rr (List.mem_of_mem_filter hrr)
      subst he
      rcases hor with h | ⟨s, h⟩
      · exact ⟨r, hr, a, b, Or.inl h⟩
      · exact ⟨r, hr, a, b, Or.inr ⟨s, h⟩⟩
    · rw [if_neg hcond] at hr'
      obtain ⟨r, hr, a, b, he⟩ :=
        priceRows_shape o ci ti (preFilteredRows o t) r' (List.mem_of_mem_filter hr')
      exact ⟨r, hr, a, b, Or.inl he⟩

/-- C10 (witness): the headerless example keeps an empty header list while
its row gains the two price cells. -/
theorem empty_headers_stay_empty_witness :
    (processOne {} exNoHeaders).1.headers = [] ∧
    ∀ r' ∈ (processOne {} exNoHeaders).1.rows, ∃ r ∈ preFilteredRows {} exNoHeaders,
      ∃ a b : String, r' = r ++ [a, b] ∨ ∃ s, r' = (r ++ [a, b]).set 0 s :=
  empty_headers_stay_empty {} exNoHeaders 0 1 rfl (by decide)

theorem set_of_get? : ∀ (l : List String) (i : ℕ) (a : String),
    l.get? i = some a → l.set i a = l := by
  intro l
  induction l with
  | nil => intro i a h; cases h
  | cons x xs ih =>
    intro i a h
    cases i with
    | zero => simp at h; simp [h]
    | succ n => simpa using ih n a (by simpa using h)

theorem renameCirc_fix (hs : List String) (ci : ℕ)
    (h : hs.get? ci = some circLabel) : renameCirc ci hs = hs := by
  unfold renameCirc
  rw [h]
  simp only [Option.getD_some]
  rw [if_pos (by decide)]
  exact set_of_get? hs ci circLabel h

theorem renameTreat_fix (hs : List String) (ti : ℕ)
    (h : hs.get? ti = some treatLabel) : renameTreat ti hs = hs := by
  unfold renameTreat
  rw [h]
  simp only [Option.getD_some]
  rw [if_pos (by decide)]
  exact set_of_get? hs ti treatLabel h

theorem renameLp_eq (hs : List String) :
    renameLp hs =
      if hs.length > 0 ∧ lpCond ((hs.get? 0).getD "") then hs.set 0 "Lp." else hs := by
  unfold renameLp lpCond
  by_cases h1 : hs.length > 0
  · by_cases h2 : lpCond ((hs.get? 0).getD "")
    · unfold lpCond at h2
      simp only [if_pos h1, if_pos h2, if_pos (And.intro h1 h2)]
    · unfold lpCond at h2
      simp only [if_pos h1, if_neg h2]
      rw [if_neg (fun h => h2 h.2)]
  · simp only [if_neg h1]
    rw [if_neg (fun h => h1 h.1)]

theorem renameSpecies_eq (ci ti : ℕ) (hs : List String) :
    renameSpecies ci ti hs =
      if (hs.length > 1 ∧ ci ≠ 1 ∧ ti ≠ 1) ∧ spCond ((hs.get? 1).getD "") then
        hs.set 1 speciesLabel
      else hs := by
  unfold renameSpecies spCond
  by_cases h1 : hs.length > 1 ∧ ci ≠ 1 ∧ ti ≠ 1
  · by_cases h2 : spCond ((hs.get? 1).getD "")
    · unfold spCond at h2
      simp only [if_pos h1, if_pos h2, if_pos (And.intro h1 h2)]
    · unfold spCond at h2
      simp only [if_pos h1, if_neg h2]
      rw [if_neg (fun h => h2 h.2)]
  · simp only [if_neg h1]
    rw [if_neg (fun h => h1 h.1)]

theorem renameLp_get?_ne (hs : List String) (j : ℕ) (hj : j ≠ 0) :
    (renameLp hs).get? j = hs.get? j := by
  rw [renameLp_eq]
  split
  · exact List.get?_set_ne _ _ (fun h => hj h.symm)
  · rfl

theorem renameSpecies_get?_ne (ci ti : ℕ) (hs : List String) (j : ℕ) (hj : j ≠ 1) :
    (renameSpecies ci ti hs).get? j = hs.get? j := by
  rw [renameSpecies_eq]
  split
  · exact List.get?_set_ne _ _ (fun h => hj h.symm)
  · rfl

theorem renameLp_length (hs : List String) : (renameLp hs).length = hs.length := by
  rw [renameLp_eq]
  split <;> simp

theorem renameSpecies_length (ci ti : ℕ) (hs : List String) :
    (renameSpecies ci ti hs).length = hs.length := by
  rw [renameSpecies_eq]
  split <;> simp

theorem get?_set_self (l : List String) (i : ℕ) (a : String) (h : i < l.length) :
    (l.set i a).get? i = some a := by
  rw [List.get?_eq_getElem?]
  exact List.getElem?_set_eq_of_lt a h

/-- C8 (amended): the relabelling substitutions (without the appending of
the two value labels) are idempotent on header lists that already carry the
canonical labels at their classified columns; the full header step is not
idempotent because each application appends the two value labels. -/
theorem relabel_idempotent_on_canonical (H : List String) (ci ti : ℕ)
    (hci : H.get? ci = some circLabel) (hti : H.get? ti = some treatLabel) :
    relabelHeaders ci ti (relabelHeaders ci ti H) = relabelHeaders ci ti H := by
  have hciLt : ci < H.length := List.get?_eq_some.mp hci |>.1
  have htiLt : ti < H.length := List.get?_eq_some.mp hti |>.1
  have h1 : renameCirc ci H = H := renameCirc_fix H ci hci
  have h2 : renameTreat ti H = H := renameTreat_fix H ti hti
  -- the first application reduces to the two positional fallbacks
  have hfirst : relabelHeaders ci ti H = renameSpecies ci ti (renameLp H) := by
    unfold relabelHeaders
    rw [h1, h2]
  set G := renameLp H with hG
  set H1 := renameSpecies ci ti G with hH1
  have hGlen : G.length = H.length := renameLp_length H
  have hH1len : H1.length = H.length := by rw [hH1, renameSpecies_length, hGlen]
  -- position `ci` of the once-relabelled list still holds the circ label
  have f1 : H1.get? ci = some circLabel := by
    by_cases hc1 : ci = 1
    · subst hc1
      rw [hH1, renameSpecies_eq]
      rw [if_neg (by intro h; exact h.1.2.1 rfl)]
      rw [hG, renameLp_get?_ne H 1 (by decide)]
      exact hci
    · rw [hH1, renameSpecies_get?_ne ci ti G ci hc1]
      by_cases hc0 : ci = 0
      · subst hc0
        rw [hG, renameLp_eq]
        rw [if_neg (by
          intro h
          have := h.2
          rw [hci] at this
          simp only [Option.getD_some] at this
          exact absurd this (by decide))]
        exact hci
      · rw [hG, renameLp_get?_ne H ci hc0]
        exact hci
  have f2 : H1.get? ti = some treatLabel := by
    by_cases hc1 : ti = 1
    · subst hc1
      rw [hH1, renameSpecies_eq]
      rw [if_neg (by intro h; exact h.1.2.2 rfl)]
      rw [hG, renameLp_get?_ne H 1 (by decide)]
      exact hti
    · rw [hH1, renameSpecies_get?_ne ci ti G ti hc1]
      by_cases hc0 : ti = 0
      · subst hc0
        rw [hG, renameLp_eq]
        rw [if_neg (by
          intro h
          have := h.2
          rw [hti] at this
          simp only [Option.getD_some] at this
          exact absurd this (by decide))]
        exact hti
      · rw [hG, renameLp_get?_ne H ti hc0]
        exact hti
  have g1 : renameCirc ci H1 = H1 := renameCirc_fix H1 ci f1
  have g2 : renameTreat ti H1 = H1 := renameTreat_fix H1 ti f2
  -- the ordinal fallback is stable on the second pass
  have g3 : renameLp H1 = H1 := by
    by_cases hc0 : ci = 0
    · subst hc0
      rw [renameLp_eq]
      rw [if_neg (by
        intro h
        have := h.2
        rw [f1] at this
        simp only [Option.getD_some] at this
        exact absurd this (by decide))]
    · by_cases ht0 : ti = 0
      · subst ht0
        rw [renameLp_eq]
        rw [if_neg (by
          intro h
          have := h.2
          rw [f2] at this
          simp only [Option.getD_some] at this
          exact absurd this (by decide))]
      · have hp0 : H1.get? 0 = G.get? 0 := by
          by_cases hsp : (G.length > 1 ∧ ci ≠ 1 ∧ ti ≠ 1) ∧ spCond ((G.get? 1).getD "")
          · rw [hH1, renameSpecies_eq, if_pos hsp]
            exact List.get?_set_ne _ _ (by decide)
          · rw [hH1, renameSpecies_eq, if_neg hsp]
        rw [hG, renameLp_eq] at hp0
        by_cases hlp : H.length > 0 ∧ lpCond ((H.get? 0).getD "")
        · rw [if_pos hlp] at hp0
          have hp0' : H1.get? 0 = some "Lp." := by
            rw [hp0]
            exact get?_set_self H 0 "Lp." (by omega)
          rw [renameLp_eq]
          rw [if_pos ⟨by omega, by rw [hp0']; exact Or.inl (by decide)⟩]
          exact set_of_get? H1 0 "Lp." hp0'
        · rw [if_neg hlp] at hp0
          rw [renameLp_eq]
          rw [if_neg (by
            intro h
            apply hlp
            constructor
            · omega
            · rw [← hp0]
              exact h.2)]
  -- the species fallback is stable on the second pass
  have g4 : renameSpecies ci ti H1 = H1 := by
    by_cases hguard : H1.length > 1 ∧ ci ≠ 1 ∧ ti ≠ 1
    · have hguardG : G.length > 1 ∧ ci ≠ 1 ∧ ti ≠ 1 := by
        refine ⟨by omega, hguard.2⟩
      by_cases hsp : spCond ((G.get? 1).getD "")
      · have hH1eq : H1 = G.set 1 speciesLabel := by
          rw [hH1, renameSpecies_eq, if_pos ⟨hguardG, hsp⟩]
        have hp1 : H1.get? 1 = some speciesLabel := by
          rw [hH1eq]
          exact get?_set_self G 1 speciesLabel (by omega)
        rw [renameSpecies_eq, if_pos ⟨hguard, by
          rw [hp1]
          exact Or.inl (by decide)⟩]
        exact set_of_get? H1 1 speciesLabel hp1
      · have hH1eq : H1 = G := by
          rw [hH1, renameSpecies_eq, if_neg (fun h => hsp h.2)]
        rw [renameSpecies_eq, if_neg (by
          intro h
          apply hsp
          rw [← hH1eq]
          exact h.2)]
    · rw [renameSpecies_eq, if_neg (fun h => hguard h.1)]
  calc relabelHeaders ci ti (relabelHeaders ci ti H)
      = relabelHeaders ci ti H1 := by rw [hfirst]
    _ = renameSpecies ci ti (renameLp H1) := by
        unfold relabelHeaders
        rw [g1, g2]
    _ = H1 := by rw [g3, g4]
    _ = relabelHeaders ci ti H := by rw [hfirst]

/-- C8 (amended, witness): idempotence at a concrete canonical list. -/
theorem relabel_idempotent_on_canonical_witness :
    relabelHeaders 0 1 (relabelHeaders 0 1 [circLabel, treatLabel]) =
      relabelHeaders 0 1 [circLabel, treatLabel] :=
  relabel_idempotent_on_canonical [circLabel, treatLabel] 0 1 (by decide) (by decide)

theorem mem_keys_iff_any (m : ScoreMap) (i : ℕ) :
    m.any (fun p => p.1 = i) = true ↔ i ∈ keysOf m := by
  unfold keysOf
  rw [List.any_eq_true]
  constructor
  · rintro ⟨p, hp, he⟩
    simp only [decide_eq_true_eq] at he
    exact he ▸ List.mem_map_of_mem Prod.fst hp
  · intro h
    obtain ⟨p, hp, he⟩ := List.mem_map.mp h
    exact ⟨p, hp, by simp [he]⟩

theorem touch_of_mem (m : ScoreMap) (i : ℕ) (h : i ∈ keysOf m) : touch m i = m := by
  unfold touch
  rw [if_pos ((mem_keys_iff_any m i).mpr h)]

theorem touch_keys_not_mem (m : ScoreMap) (i : ℕ) (h : i ∉ keysOf m) :
    keysOf (touch m i) = keysOf m ++ [i] := by
  unfold touch
  have hany : m.any (fun p => p.1 = i) = false := by
    rw [← Bool.not_eq_true, mem_keys_iff_any]
    exact h
  rw [if_neg (by simp [hany])]
  simp [keysOf]

theorem upd_keys (m : ScoreMap) (i : ℕ) (f : ColScore → ColScore) :
    keysOf (upd m i f) = keysOf m := by
  unfold keysOf upd
  rw [List.map_map]
  apply List.map_congr_left
  intro p _
  by_cases h : p.1 = i <;> simp [h]

theorem scoreHeader_keys (m : ScoreMap) (p : ℕ × String) :
    keysOf (scoreHeader m p) = keysOf (touch m p.1) := by
  unfold scoreHeader
  dsimp only
  split_ifs <;> simp only [upd_keys]

theorem strat1_keys_aux :
    ∀ (hs : List String) (k : ℕ) (m : ScoreMap), keysOf m = List.range k →
      keysOf ((List.enumFrom k hs).foldl scoreHeader m) = List.range (k + hs.length) := by
  intro hs
  induction hs with
  | nil => intro k m h; simpa using h
  | cons s hs ih =>
    intro k m h
    have hstep : keysOf (scoreHeader m (k, s)) = List.range (k + 1) := by
      rw [scoreHeader_keys]
      rw [touch_keys_not_mem m k (by rw [h]; simp)]
      rw [h, ← List.range_succ]
    have := ih (k + 1) (scoreHeader m (k, s)) hstep
    simp only [List.enumFrom, List.foldl_cons]
    rw [this]
    congr 1
    simp only [List.length_cons]
    omega

theorem scoreCell_keys (m : ScoreMap) (p : ℕ × String) (h : p.1 ∈ keysOf m) :
    keysOf (scoreCell m p) = keysOf m := by
  unfold scoreCell
  by_cases h0 : p.2 = ""
  · rw [if_pos h0]
  · rw [if_neg h0]
    dsimp only
    simp only [touch_of_mem m p.1 h]
    split_ifs <;> simp only [upd_keys]

theorem foldl_scoreCell_keys :
    ∀ (l : List (ℕ × String)) (m : ScoreMap), (∀ p ∈ l, p.1 ∈ keysOf m) →
      keysOf (l.foldl scoreCell m) = keysOf m := by
  intro l
  induction l with
  | nil => intro m _; rfl
  | cons p l ih =>
    intro m h
    have hk := scoreCell_keys m p (h p (by simp))
    simp only [List.foldl_cons]
    rw [ih (scoreCell m p) (fun q hq => by rw [hk]; exact h q (by simp [hq])), hk]

theorem strat2_keys :
    ∀ (rows : List (List String)) (m : ScoreMap) (n : ℕ), keysOf m = List.range n →
      (∀ r ∈ rows, r.length ≤ n) → keysOf (strat2 m rows) = List.range n := by
  intro rows
  induction rows with
  | nil => intro m n h _; exact h
  | cons row rest ih =>
    intro m n h hcov
    have hrow : keysOf (scoreRow m row) = List.range n := by
      rw [scoreRow, foldl_scoreCell_keys row.enum m ?_]
      · exact h
      · intro p hp
        rw [h, List.mem_range]
        have hlt : p.1 < row.length := by
          rw [List.enum_eq_zip_range] at hp
          have := (List.of_mem_zip hp).1
          simpa using this
        exact lt_of_lt_of_le hlt (hcov row (by simp))
    have hrest : strat2 m (row :: rest) = strat2 (scoreRow m row) rest := rfl
    rw [hrest]
    exact ih (scoreRow m row) n hrow (fun r hr => hcov r (by simp [hr]))

theorem buildScores_keys (t : ExtractedTable)
    (hcov : ∀ r ∈ t.rows, r.length ≤ t.headers.length) :
    keysOf (buildScores t) = List.range t.headers.length := by
  unfold buildScores
  apply strat2_keys t.rows _ _ _ hcov
  have h := strat1_keys_aux t.headers 0 [] (by simp [keysOf])
  simpa [strat1, List.enum] using h

theorem selectLoop_eq_pick :
    ∀ (m : ScoreMap) (a : Option ℕ) (b : ℕ) (c : Option ℕ) (d : ℕ),
      m.foldl selectStep (a, b, c, d) =
        ((pickAux (a, b) (m.map (fun p => (p.1, p.2.circ)))).1,
         (pickAux (a, b) (m.map (fun p => (p.1, p.2.circ)))).2,
         (pickAux (c, d) (m.map (fun p => (p.1, p.2.treat)))).1,
         (pickAux (c, d) (m.map (fun p => (p.1, p.2.treat)))).2) := by
  intro m
  induction m with
  | nil => intro a b c d; simp [pickAux]
  | cons p m' ih =>
    intro a b c d
    simp only [List.foldl_cons, List.map_cons]
    by_cases h1 : p.2.circ > b <;> by_cases h2 : p.2.treat > d <;>
      simp only [selectStep, pickStep, pickAux, List.foldl_cons, h1, h2,
        if_true, if_false] <;>
      exact ih _ _ _ _

theorem pickAux_range (n : ℕ) (f : ℕ → ℕ) :
    (pickAux (none, 0) ((List.range n).map (fun i => (i, f i)))).1 = specSelectAsc n f := by
  unfold pickAux specSelectAsc specFoldState
  rw [List.foldl_map]
  rfl

theorem map_eq_range_map :
    ∀ (m : ScoreMap) (ks : List ℕ), keysOf m = ks → ks.Nodup →
      ∀ (g : ColScore → ℕ),
        m.map (fun p => (p.1, g p.2)) = ks.map (fun i => (i, g (scoreOf m i))) := by
  intro m
  induction m with
  | nil =>
    intro ks h _ g
    rw [← h]
    simp [keysOf]
  | cons p m' ih =>
    intro ks h hnd g
    rw [← h]
    rw [← h] at hnd
    simp only [keysOf, List.map_cons] at hnd ⊢
    have hsc : scoreOf (p :: m') p.1 = p.2 := by
      simp [scoreOf, List.lookup]
    have hne : p.1 ∉ m'.map Prod.fst := (List.nodup_cons.mp hnd).1
    have htail : ∀ i ∈ m'.map Prod.fst, scoreOf (p :: m') i = scoreOf m' i := by
      intro i hi
      have hne2 : (i == p.1) = false := by
        apply beq_eq_false_iff_ne.mpr
        intro e
        exact hne (e ▸ hi)
      simp [scoreOf, List.lookup, hne2]
    rw [hsc]
    congr 1
    rw [ih (m'.map Prod.fst) rfl (List.nodup_cons.mp hnd).2 g]
    exact (List.map_congr_left (fun i hi => by rw [htail i hi])).symm

/-- Full characterisation of the ascending scan: the selected index is the
first index achieving the strict maximum, and nothing is selected when all
scores are zero. -/
theorem specFoldState_spec (f : ℕ → ℕ) (n : ℕ) :
    ((specFoldState n f).1 = none →
      (specFoldState n f).2 = 0 ∧ ∀ j < n, f j = 0) ∧
    (∀ i, (specFoldState n f).1 = some i →
      i < n ∧ (specFoldState n f).2 = f i ∧ 0 < f i ∧
      (∀ j < n, f j ≤ f i) ∧ (∀ j < i, f j < f i)) := by
  induction n with
  | zero =>
    constructor
    · intro _
      exact ⟨rfl, fun j hj => absurd hj (Nat.not_lt_zero j)⟩
    · intro i h
      cases h
  | succ n ih =>
    have hstep : specFoldState (n + 1) f =
        (if f n > (specFoldState n f).2 then (some n, f n) else specFoldState n f) := by
      unfold specFoldState
      rw [List.range_succ, List.foldl_append]
      rfl
    constructor
    · intro h
      rw [hstep] at h
      by_cases hc : f n > (specFoldState n f).2
      · rw [if_pos hc] at h
        cases h
      · rw [if_neg hc] at h
        obtain ⟨h2, hall⟩ := ih.1 h
        rw [hstep, if_neg hc]
        refine ⟨h2, ?_⟩
        intro j hj
        rcases Nat.lt_succ_iff_lt_or_eq.mp hj with hj' | rfl
        · exact hall j hj'
        · omega
    · intro i h
      rw [hstep] at h
      by_cases hc : f n > (specFoldState n f).2
      · rw [if_pos hc] at h
        injection h with h
        subst h
        refine ⟨by omega, by rw [hstep, if_pos hc], by omega, ?_, ?_⟩
        · intro j hj
          rcases Nat.lt_succ_iff_lt_or_eq.mp hj with hj' | rfl
          · rcases hst : (specFoldState n f).1 with _ | i0
            · have h0 := (ih.1 hst).2 j hj'
              omega
            · have hi0 := ih.2 i0 hst
              have h1 := hi0.2.2.2.1 j hj'
              have h2 := hi0.2.1
              omega
          · omega
        · intro j hj
          rcases hst : (specFoldState n f).1 with _ | i0
          · have h0 := (ih.1 hst).2 j (by omega)
            omega
          · have hi0 := ih.2 i0 hst
            have h1 := hi0.2.2.2.1 j (by omega)
            have h2 := hi0.2.1
            omega
      · rw [if_neg hc] at h
        obtain ⟨hin, hst2, hpos, hall, hbefore⟩ := ih.2 i h
        refine ⟨by omega, by rw [hstep, if_neg hc]; exact hst2, hpos, ?_, hbefore⟩
        intro j hj
        rcases Nat.lt_succ_iff_lt_or_eq.mp hj with hj' | rfl
        · exact hall j hj'
        · omega

/-- C5 (amended): when the table's headers cover every row cell index, the
score map's insertion order is ascending and the selection loop coincides
with the spec's ascending-index scan, for the circumference and the
treatment pick alike; a selected column always has positive evidence and is
the first index achieving the strict maximum, and when no column has
positive evidence the pick stays unresolved. -/
theorem selection_asc_of_headers_cover (t : ExtractedTable)
    (hcover : ∀ r ∈ t.rows, r.length ≤ t.headers.length) :
    (selectLoop (buildScores t)).1 =
      specSelectAsc t.headers.length (fun i => (scoreOf (buildScores t) i).circ) ∧
    (selectLoop (buildScores t)).2.2.1 =
      specSelectAsc t.headers.length (fun i => (scoreOf (buildScores t) i).treat) ∧
    (∀ i, (selectLoop (buildScores t)).1 = some i →
      0 < (scoreOf (buildScores t) i).circ ∧ i < t.headers.length ∧
      (∀ j < t.headers.length,
        (scoreOf (buildScores t) j).circ ≤ (scoreOf (buildScores t) i).circ) ∧
      (∀ j < i, (scoreOf (buildScores t) j).circ < (scoreOf (buildScores t) i).circ)) ∧
    ((∀ j < t.headers.length, (scoreOf (buildScores t) j).circ = 0) →
      (selectLoop (buildScores t)).1 = none) := by
  have hkeys : keysOf (buildScores t) = List.range t.headers.length :=
    buildScores_keys t hcover
  have hcmap : (buildScores t).map (fun p => (p.1, p.2.circ)) =
      (List.range t.headers.length).map
        (fun i => (i, (scoreOf (buildScores t) i).circ)) :=
    map_eq_range_map (buildScores t) _ hkeys (List.nodup_range _) (fun s => s.circ)
  have htmap : (buildScores t).map (fun p => (p.1, p.2.treat)) =
      (List.range t.headers.length).map
        (fun i => (i, (scoreOf (buildScores t) i).treat)) :=
    map_eq_range_map (buildScores t) _ hkeys (List.nodup_range _) (fun s => s.treat)
  have hsel := selectLoop_eq_pick (buildScores t) none 0 none 0
  have hc : (selectLoop (buildScores t)).1 =
      specSelectAsc t.headers.length (fun i => (scoreOf (buildScores t) i).circ) := by
    rw [selectLoop, hsel]
    rw [hcmap, pickAux_range]
  have ht : (selectLoop (buildScores t)).2.2.1 =
      specSelectAsc t.headers.length (fun i => (scoreOf (buildScores t) i).treat) := by
    rw [selectLoop, hsel]
    rw [htmap, pickAux_range]
  refine ⟨hc, ht, ?_, ?_⟩
  · intro i h
    rw [hc] at h
    have hspec :=
      (specFoldState_spec (fun i => (scoreOf (buildScores t) i).circ)
        t.headers.length).2 i h
    exact ⟨hspec.2.2.1, hspec.1, hspec.2.2.2.1, hspec.2.2.2.2⟩
  · intro hz
    rw [hc]
    rcases hres : specSelectAsc t.headers.length
        (fun i => (scoreOf (buildScores t) i).circ) with _ | i
    · rfl
    · exfalso
      have hspec :=
        (specFoldState_spec (fun i => (scoreOf (buildScores t) i).circ)
          t.headers.length).2 i hres
      have := hz i hspec.1
      omega

/-- C5 (amended, witness): the coincidence at the end-to-end example table,
whose headers cover all four row cells. -/
theorem selection_asc_of_headers_cover_witness :
    (selectLoop (buildScores exTable)).1 =
      specSelectAsc exTable.headers.length
        (fun i => (scoreOf (buildScores exTable) i).circ) ∧
    (selectLoop (buildScores exTable)).2.2.1 =
      specSelectAsc exTable.headers.length
        (fun i => (scoreOf (buildScores exTable) i).treat) ∧
    (∀ i, (selectLoop (buildScores exTable)).1 = some i →
      0 < (scoreOf (buildScores exTable) i).circ ∧ i < exTable.headers.length ∧
      (∀ j < exTable.headers.length,
        (scoreOf (buildScores exTable) j).circ ≤ (scoreOf (buildScores exTable) i).circ) ∧
      (∀ j < i,
        (scoreOf (buildScores exTable) j).circ < (scoreOf (buildScores exTable) i).circ)) ∧
    ((∀ j < exTable.headers.length, (scoreOf (buildScores exTable) j).circ = 0) →
      (selectLoop (buildScores exTable)).1 = none) :=
  selection_asc_of_headers_cover exTable (by decide)

end Kosztorysy
